import Mathlib

/-!
Shallow embedding of `src/main.py` (dns-exfil): a UDP DNS query observer that
optionally hex-decodes exfiltrated data from DNS question-name labels.

Python strings are modelled as `List Char` (sequences of Unicode scalar
values), Python `bytes` as `List Nat` with every element below 256.
-/

/-- UTF-8 encoding of a single Unicode scalar value, as byte values: the
per-character behaviour of Python `str.encode("utf-8")`. -/
def utf8EncodeChar (c : Nat) : List Nat :=
  if c < 0x80 then [c]
  else if c < 0x800 then [0xC0 + c / 0x40, 0x80 + c % 0x40]
  else if c < 0x10000 then
    [0xE0 + c / 0x1000, 0x80 + c / 0x40 % 0x40, 0x80 + c % 0x40]
  else
    [0xF0 + c / 0x40000, 0x80 + c / 0x1000 % 0x40, 0x80 + c / 0x40 % 0x40,
      0x80 + c % 0x40]

/-- Model of Python `t.encode("utf-8")`. -/
def utf8Encode (s : List Char) : List Nat :=
  (s.map (fun c => utf8EncodeChar c.toNat)).flatten

/-- Byte-at-a-time strict UTF-8 decoding automaton. The second argument is
the in-progress multi-byte sequence: `some (k, acc, mi)` means `k` more
continuation bytes are expected, `acc` holds the accumulated code-point bits
and `mi` the smallest code point the sequence may produce (the
overlong-encoding bound). -/
def utf8Run : List Nat → Option (Nat × Nat × Nat) → Option (List Nat)
  | [], none => some []
  | [], some _ => none
  | b :: tl, none =>
    if b < 0x80 then (utf8Run tl none).map (b :: ·)
    else if b < 0xC2 then none
    else if b < 0xE0 then utf8Run tl (some (1, b - 0xC0, 0x80))
    else if b < 0xF0 then utf8Run tl (some (2, b - 0xE0, 0x800))
    else if b < 0xF5 then utf8Run tl (some (3, b - 0xF0, 0x10000))
    else none
  | b :: tl, some (k, acc, mi) =>
    if 0x80 ≤ b ∧ b < 0xC0 then
      if k ≤ 1 then
        if mi ≤ acc * 0x40 + (b - 0x80) ∧ acc * 0x40 + (b - 0x80) < 0x110000 ∧
            ¬(0xD800 ≤ acc * 0x40 + (b - 0x80) ∧ acc * 0x40 + (b - 0x80) < 0xE000) then
          (utf8Run tl none).map ((acc * 0x40 + (b - 0x80)) :: ·)
        else none
      else utf8Run tl (some (k - 1, acc * 0x40 + (b - 0x80), mi))
    else none

/-- Strict UTF-8 decoder on byte values, yielding code points. It rejects
truncated sequences, stray or invalid lead and continuation bytes, overlong
encodings, surrogates and out-of-range code points — exactly the conditions
under which Python `bytes.decode("utf-8")` raises `UnicodeDecodeError`. -/
def utf8DecodeCodes (l : List Nat) : Option (List Nat) := utf8Run l none

/-- Value of one hexadecimal digit character, upper or lower case. -/
def hexDigitVal? (c : Char) : Option Nat :=
  if '0' ≤ c ∧ c ≤ '9' then some (c.toNat - 48)
  else if 'a' ≤ c ∧ c ≤ 'f' then some (c.toNat - 87)
  else if 'A' ≤ c ∧ c ≤ 'F' then some (c.toNat - 55)
  else none

/-- Model of Python `bytes.fromhex`: two hexadecimal digits per byte, spaces
permitted between pairs; `none` models the `ValueError` raised on odd length
or a non-hex character. -/
def fromHex? : List Char → Option (List Nat)
  | [] => some []
  | c :: rest =>
    if c = ' ' then fromHex? rest
    else
      match rest with
      | c2 :: rest2 => do
        let hi ← hexDigitVal? c
        let lo ← hexDigitVal? c2
        let bs ← fromHex? rest2
        some ((hi * 16 + lo) :: bs)
      | [] => none

/-- Lower-case hexadecimal rendering of one byte value. -/
def byteToHex (b : Nat) : List Char := [Nat.digitChar (b / 16), Nat.digitChar (b % 16)]

/-- Model of Python `bytes.hex()`: lower case, two digits per byte. -/
def bytesToHex (bs : List Nat) : List Char := (bs.map byteToHex).flatten

/-- Code points back to characters; the decoder only emits valid scalar
values, on which `Char.ofNat` is exact. -/
def natsToChars (l : List Nat) : List Char := l.map Char.ofNat

/-- Model of `DNSLoggerHelper.decode_hex` (src/main.py lines 19-25): interpret
the label as hex, decode the resulting bytes as UTF-8 text, and on any
`ValueError` (including `UnicodeDecodeError`) fall back to the original
label. -/
def decode_hex (data : List Char) : List Char :=
  match fromHex? data with
  | none => data
  | some bs =>
    match utf8DecodeCodes bs with
    | none => data
    | some codes => natsToChars codes

/-- Model of `DNSLoggerHelper.parse_suffix` (src/main.py lines 11-17). -/
def parse_suffix (suffix : List Char) : List Char :=
  let s1 := if suffix ≠ [] ∧ ¬(['.'] <+: suffix) then '.' :: suffix else suffix
  if s1 ≠ [] ∧ ¬(['.'] <:+ s1) then s1 ++ ['.'] else s1

/-- Model of `DNSLoggerHelper.remove_suffix` (src/main.py lines 27-31). -/
def remove_suffix (data suffix : List Char) : List Char :=
  if suffix ≠ [] ∧ suffix <:+ data then data.take (data.length - suffix.length)
  else data

/-- Model of Python `s.split(".")`. -/
def splitDot : List Char → List (List Char)
  | [] => [[]]
  | c :: rest =>
    if c = '.' then [] :: splitDot rest
    else
      match splitDot rest with
      | g :: gs => (c :: g) :: gs
      | [] => [[c]]

/-- Model of Python `".".join(parts)`. -/
def joinDots : List (List Char) → List Char
  | [] => []
  | [x] => x
  | x :: y :: xs => x ++ '.' :: joinDots (y :: xs)

/-- Modelled from the spec: the opaque wire-level question record of the
black-box DNS codec (`dnslib.DNSQuestion`, outside this repository), exposing
a gettable/settable fully-qualified name. -/
structure Question where
  qname : List Char
deriving DecidableEq

/-- Modelled from the spec: the opaque Request/Response Message of the
black-box DNS codec, exposing its question (`get_q`). -/
structure DNSRecordM where
  q : Question
deriving DecidableEq

/-- State of `DNSLogger` (src/main.py lines 34-37): the normalized suffix and
the decode flag, fixed at construction. -/
structure DNSLogger where
  suffix : List Char
  hex_encoded : Bool

/-- Model of `DNSLogger.__init__` (src/main.py lines 35-37). -/
def DNSLogger.init (suffix : List Char) (hex_encoded : Bool) : DNSLogger :=
  ⟨parse_suffix suffix, hex_encoded⟩

/-- Model of `DNSLogger.parse_question` (src/main.py lines 39-47); the
in-place `set_qname` mutation of the question argument is made explicit by
returning the updated question. -/
def DNSLogger.parse_question (self : DNSLogger) (question : Question) : Question :=
  if !self.hex_encoded then question
  else
    let qname := question.qname
    let suffixed := remove_suffix qname self.suffix
    let subdomains := (splitDot suffixed).map decode_hex
    { question with qname := joinDots subdomains ++ self.suffix }

/-- Modelled from the spec: the string form of the opaque question record, as
interpolated into the emitted log line (spec section 6: the rendered,
decoded/stripped question name). -/
def strQuestion (q : Question) : List Char := q.qname

/-- Model of `DNSLogger.log` (src/main.py lines 49-51): renders the request's
question (mutating that question object in place) and emits one line. The
returned pair holds the emitted line and the question object after the
mutation. -/
def DNSLogger.log (self : DNSLogger) (sender : List Char) (parsed_req : DNSRecordM) :
    List Char × Question :=
  let question := self.parse_question parsed_req.q
  (sender ++ ':' :: ' ' :: strQuestion question, question)

/-- Outcome of one `DNSHandler.handle` invocation: the log lines it emitted,
the request message it passed to the resolver (when reached), and the reply
bytes it sent (when any). -/
structure HandleResult where
  logged : List (List Char)
  resolvedInput : Option DNSRecordM
  reply : Option (List Nat)
deriving DecidableEq

/-- Model of `copy.deepcopy` on a request message: an independent duplicate
holding the same value. -/
def deepcopyR (r : DNSRecordM) : DNSRecordM := r

/-- Model of `DNSHandler.handle` (src/main.py lines 54-61). The black-box
codec and resolver are parameters: `parse` models `DNSRecord.parse` (`none`
models the parse exception, which aborts the handler before any log line or
reply), `resolve` the resolver capability, `pack` response serialization.
The logger receives (and mutates) the deep copy; the variable `parsed_req`
itself is what reaches the resolver. -/
def handle (logger : DNSLogger) (parse : List Nat → Option DNSRecordM)
    (resolve : DNSRecordM → DNSRecordM) (pack : DNSRecordM → List Nat)
    (sender : List Char) (data : List Nat) : HandleResult :=
  match parse data with
  | none => ⟨[], none, none⟩
  | some parsed_req =>
    let logOut := logger.log sender (deepcopyR parsed_req)
    let response := resolve parsed_req
    ⟨[logOut.1], some parsed_req, some (pack response)⟩

/-- Model of the threaded UDP listener dispatch (src/main.py lines 64-65 and
`serve_forever`): every received datagram, paired with its sender address, is
handled by an independent `handle` invocation, so a failure is contained to
its own datagram. -/
def serve (logger : DNSLogger) (parse : List Nat → Option DNSRecordM)
    (resolve : DNSRecordM → DNSRecordM) (pack : DNSRecordM → List Nat)
    (reqs : List (List Char × List Nat)) : List HandleResult :=
  reqs.map fun sd => handle logger parse resolve pack sd.1 sd.2

/-- Normalization output facts for a non-empty input: the result is non-empty,
starts with the separator and ends with the separator. -/
theorem parse_suffix_spec (s : List Char) (h : s ≠ []) :
    parse_suffix s ≠ [] ∧ ['.'] <+: parse_suffix s ∧ ['.'] <:+ parse_suffix s := by
  unfold parse_suffix
  by_cases hp : ['.'] <+: s
  · simp only [hp, not_true_eq_false, and_false, if_false]
    by_cases he : ['.'] <:+ s
    · simp only [he, not_true_eq_false, and_false, if_false]
      exact ⟨h, by simpa using hp, by simpa using he⟩
    · simp only [h, ne_eq, not_false_eq_true, he, not_false_eq_true, and_self, if_true]
      exact ⟨by simp, by simpa using hp.trans (List.prefix_append s ['.']),
        by simpa using List.suffix_append s ['.']⟩
  · simp only [h, ne_eq, not_false_eq_true, hp, not_false_eq_true, and_self, if_true]
    by_cases he : ['.'] <:+ '.' :: s
    · simp only [he, not_true_eq_false, and_false, if_false]
      exact ⟨by simp, by simpa using show ['.'] <+: '.' :: s from ⟨s, rfl⟩, by simpa using he⟩
    · simp only [he, not_false_eq_true, and_true, if_pos]
      refine ⟨by simp, ?_, by simpa using List.suffix_append ('.' :: s) ['.']⟩
      simpa using List.IsPrefix.trans (show ['.'] <+: '.' :: s from ⟨s, rfl⟩)
        (List.prefix_append ('.' :: s) ['.'])

/-- Strings already starting and ending with the separator are fixed points of
normalization. -/
theorem parse_suffix_fixed (r : List Char) (hp : ['.'] <+: r) (he : ['.'] <:+ r) :
    parse_suffix r = r := by
  have hne : r ≠ [] := by rintro rfl; simp at hp
  unfold parse_suffix
  simp [hp, he]

/-- Decoding a lower-case hex digit character recovers its value. -/
theorem hexDigitVal_digitChar : ∀ n, n < 16 → hexDigitVal? (Nat.digitChar n) = some n := by
  decide

/-- Hex digit characters are never the space skipped by `fromHex?`. -/
theorem digitChar_ne_space : ∀ n, n < 16 → Nat.digitChar n ≠ ' ' := by decide

/-- Hex round trip at the byte level: parsing the hex rendering of a byte
string recovers the bytes. -/
theorem fromHex_bytesToHex (bs : List Nat) (h : ∀ b ∈ bs, b < 256) :
    fromHex? (bytesToHex bs) = some bs := by
  induction bs with
  | nil => rfl
  | cons b tl ih =>
    have hb : b < 256 := h b (by simp)
    have hrest := ih (fun x hx => h x (by simp [hx]))
    have h1 : b / 16 < 16 := by omega
    have h2 : b % 16 < 16 := by omega
    have hsh : bytesToHex (b :: tl)
        = Nat.digitChar (b / 16) :: Nat.digitChar (b % 16) :: bytesToHex tl := by
      simp [bytesToHex, byteToHex]
    rw [hsh]
    unfold fromHex?
    rw [if_neg (digitChar_ne_space _ h1)]
    simp only [hexDigitVal_digitChar _ h1, hexDigitVal_digitChar _ h2, hrest,
      Option.bind_some, Option.some_bind]
    have : b / 16 * 16 + b % 16 = b := by omega
    simp [this]

/-- Decoder step: an ASCII byte yields its own code point. -/
theorem utf8Run_ascii (b : Nat) (tl : List Nat) (h : b < 0x80) :
    utf8Run (b :: tl) none = (utf8Run tl none).map (b :: ·) := by
  simp only [utf8Run]
  rw [if_pos h]

/-- Decoder step: a two-byte lead starts a pending sequence. -/
theorem utf8Run_lead2 (b : Nat) (tl : List Nat) (h0 : 0xC2 ≤ b) (h1 : b < 0xE0) :
    utf8Run (b :: tl) none = utf8Run tl (some (1, b - 0xC0, 0x80)) := by
  simp only [utf8Run]
  rw [if_neg (by omega), if_neg (by omega), if_pos h1]

/-- Decoder step: a three-byte lead starts a pending sequence. -/
theorem utf8Run_lead3 (b : Nat) (tl : List Nat) (h0 : 0xE0 ≤ b) (h1 : b < 0xF0) :
    utf8Run (b :: tl) none = utf8Run tl (some (2, b - 0xE0, 0x800)) := by
  simp only [utf8Run]
  rw [if_neg (by omega), if_neg (by omega), if_neg (by omega), if_pos h1]

/-- Decoder step: a four-byte lead starts a pending sequence. -/
theorem utf8Run_lead4 (b : Nat) (tl : List Nat) (h0 : 0xF0 ≤ b) (h1 : b < 0xF5) :
    utf8Run (b :: tl) none = utf8Run tl (some (3, b - 0xF0, 0x10000)) := by
  simp only [utf8Run]
  rw [if_neg (by omega), if_neg (by omega), if_neg (by omega), if_neg (by omega), if_pos h1]

/-- Decoder step: a continuation byte in the middle of a pending sequence. -/
theorem utf8Run_cont_mid (b k acc mi : Nat) (tl : List Nat)
    (hb : 0x80 ≤ b ∧ b < 0xC0) (hk : 2 ≤ k) :
    utf8Run (b :: tl) (some (k, acc, mi)) =
      utf8Run tl (some (k - 1, acc * 0x40 + (b - 0x80), mi)) := by
  simp only [utf8Run]
  rw [if_pos hb, if_neg (by omega)]

/-- Decoder step: the final continuation byte of a valid pending sequence
emits the accumulated code point. -/
theorem utf8Run_cont_last (b acc mi : Nat) (tl : List Nat)
    (hb : 0x80 ≤ b ∧ b < 0xC0)
    (hok : mi ≤ acc * 0x40 + (b - 0x80) ∧ acc * 0x40 + (b - 0x80) < 0x110000 ∧
      ¬(0xD800 ≤ acc * 0x40 + (b - 0x80) ∧ acc * 0x40 + (b - 0x80) < 0xE000)) :
    utf8Run (b :: tl) (some (1, acc, mi)) =
      (utf8Run tl none).map ((acc * 0x40 + (b - 0x80)) :: ·) := by
  simp only [utf8Run]
  rw [if_pos hb, if_pos (by omega), if_pos hok]

/-- Per-character UTF-8 round trip: decoding the encoding of one valid scalar
value emits that value and proceeds with the remaining bytes. -/
theorem utf8Run_encodeChar (c : Nat) (hv : Nat.isValidChar c) (rest : List Nat) :
    utf8Run (utf8EncodeChar c ++ rest) none = (utf8Run rest none).map (c :: ·) := by
  have hc : c < 0x110000 := by rcases hv with h | h <;> omega
  have hsur : c < 0xD800 ∨ 0xDFFF < c := by
    rcases hv with h | h
    · exact Or.inl h
    · exact Or.inr h.1
  by_cases h1 : c < 0x80
  · have he : utf8EncodeChar c = [c] := by unfold utf8EncodeChar; rw [if_pos h1]
    rw [he, List.cons_append, List.nil_append, utf8Run_ascii c rest h1]
  · by_cases h2 : c < 0x800
    · have he : utf8EncodeChar c = [0xC0 + c / 0x40, 0x80 + c % 0x40] := by
        unfold utf8EncodeChar; rw [if_neg h1, if_pos h2]
      rw [he]
      simp only [List.cons_append, List.nil_append]
      rw [utf8Run_lead2 _ _ (by omega) (by omega),
        utf8Run_cont_last _ _ _ _ (by omega) (by omega)]
      have : (0xC0 + c / 0x40 - 0xC0) * 0x40 + (0x80 + c % 0x40 - 0x80) = c := by omega
      rw [this]
    · by_cases h3 : c < 0x10000
      · have he : utf8EncodeChar c
            = [0xE0 + c / 0x1000, 0x80 + c / 0x40 % 0x40, 0x80 + c % 0x40] := by
          unfold utf8EncodeChar; rw [if_neg h1, if_neg h2, if_pos h3]
        rw [he]
        simp only [List.cons_append, List.nil_append]
        rw [utf8Run_lead3 _ _ (by omega) (by omega),
          utf8Run_cont_mid _ _ _ _ _ (by omega) (by omega)]
        rw [utf8Run_cont_last _ _ _ _ (by omega) (by omega)]
        have : ((0xE0 + c / 0x1000 - 0xE0) * 0x40 + (0x80 + c / 0x40 % 0x40 - 0x80)) * 0x40 +
            (0x80 + c % 0x40 - 0x80) = c := by omega
        rw [this]
      · have he : utf8EncodeChar c = [0xF0 + c / 0x40000, 0x80 + c / 0x1000 % 0x40,
            0x80 + c / 0x40 % 0x40, 0x80 + c % 0x40] := by
          unfold utf8EncodeChar; rw [if_neg h1, if_neg h2, if_neg h3]
        rw [he]
        simp only [List.cons_append, List.nil_append]
        rw [utf8Run_lead4 _ _ (by omega) (by omega),
          utf8Run_cont_mid _ _ _ _ _ (by omega) (by omega),
          utf8Run_cont_mid _ _ _ _ _ (by omega) (by omega)]
        rw [utf8Run_cont_last _ _ _ _ (by omega) (by omega)]
        have : (((0xF0 + c / 0x40000 - 0xF0) * 0x40 + (0x80 + c / 0x1000 % 0x40 - 0x80)) * 0x40 +
            (0x80 + c / 0x40 % 0x40 - 0x80)) * 0x40 + (0x80 + c % 0x40 - 0x80) = c := by omega
        rw [this]

/-- Encoded bytes of a code point below 0x110000 are single bytes. -/
theorem utf8EncodeChar_lt_256 (c : Nat) (hc : c < 0x110000) :
    ∀ b ∈ utf8EncodeChar c, b < 256 := by
  intro b hb
  by_cases h1 : c < 0x80
  · simp [utf8EncodeChar, h1] at hb; omega
  · by_cases h2 : c < 0x800
    · simp [utf8EncodeChar, h1, h2] at hb
      rcases hb with rfl | rfl <;> omega
    · by_cases h3 : c < 0x10000
      · simp [utf8EncodeChar, h1, h2, h3] at hb
        rcases hb with rfl | rfl | rfl <;> omega
      · simp [utf8EncodeChar, h1, h2, h3] at hb
        rcases hb with rfl | rfl | rfl | rfl <;> omega

/-- Every byte of the UTF-8 encoding of a string is a byte value. -/
theorem utf8Encode_bytes_lt (t : List Char) : ∀ b ∈ utf8Encode t, b < 256 := by
  intro b hb
  unfold utf8Encode at hb
  rw [List.mem_flatten] at hb
  obtain ⟨l, hl, hbl⟩ := hb
  rw [List.mem_map] at hl
  obtain ⟨ch, hch, rfl⟩ := hl
  have hv : Nat.isValidChar ch.toNat := ch.valid
  have hlt : ch.toNat < 0x110000 := by rcases hv with h | h <;> omega
  exact utf8EncodeChar_lt_256 ch.toNat hlt b hbl

/-- List-level UTF-8 round trip over valid scalar values. -/
theorem utf8DecodeCodes_flatten (cs : List Nat) (h : ∀ c ∈ cs, Nat.isValidChar c) :
    utf8DecodeCodes ((cs.map utf8EncodeChar).flatten) = some cs := by
  induction cs with
  | nil => rfl
  | cons c tl ih =>
    simp only [List.map_cons, List.flatten_cons]
    unfold utf8DecodeCodes
    rw [utf8Run_encodeChar c (h c (by simp)) _]
    have hrec := ih (fun x hx => h x (by simp [hx]))
    unfold utf8DecodeCodes at hrec
    rw [hrec]
    rfl

/-- Decoding the UTF-8 encoding of a string recovers its code points. -/
theorem utf8DecodeCodes_encode (t : List Char) :
    utf8DecodeCodes (utf8Encode t) = some (t.map Char.toNat) := by
  have hflat : utf8Encode t = ((t.map Char.toNat).map utf8EncodeChar).flatten := by
    simp [utf8Encode, List.map_map]
    rfl
  rw [hflat]
  apply utf8DecodeCodes_flatten
  intro c hc
  rw [List.mem_map] at hc
  obtain ⟨ch, hch, rfl⟩ := hc
  exact ch.valid

/-- Rebuilding characters from their own code points is the identity. -/
theorem natsToChars_toNat (t : List Char) : natsToChars (t.map Char.toNat) = t := by
  unfold natsToChars
  rw [List.map_map]
  have hcomp : (Char.ofNat ∘ Char.toNat) = id := by
    funext c
    exact Char.ofNat_toNat c
  rw [hcomp, List.map_id]

/-- C1: with `hexEncoded = true` and configured suffix `"c2.test"`, rendering
a question named `"68656c6c6f.c2.test."` strips the suffix, hex-decodes the
remaining label to `"hello"`, rejoins and reappends the normalized suffix,
producing `"hello.c2.test."`. -/
theorem render_hex_end_to_end :
    (DNSLogger.parse_question (DNSLogger.init "c2.test".data true)
      ⟨"68656c6c6f.c2.test.".data⟩).qname = "hello.c2.test.".data := by decide

/-- C2: for every parseable request datagram, the request message handed to
the resolver is exactly the message parsed from the wire; the
logging/rendering step operates on the deep copy and never changes it. -/
theorem resolver_gets_original (logger : DNSLogger) (parse : List Nat → Option DNSRecordM)
    (resolve : DNSRecordM → DNSRecordM) (pack : DNSRecordM → List Nat)
    (sender : List Char) (data : List Nat) (r : DNSRecordM)
    (h : parse data = some r) :
    (handle logger parse resolve pack sender data).resolvedInput = some r := by
  unfold handle
  rw [h]

/-- C2 witness: a concrete hex-encoded request where rendering rewrites the
question name, yet the resolver still receives the original message. -/
theorem resolver_gets_original_witness :
    (handle (DNSLogger.init "c2.test".data true)
      (fun _ => some ⟨⟨"68656c6c6f.c2.test.".data⟩⟩) id (fun _ => [])
      "peer".data []).resolvedInput = some ⟨⟨"68656c6c6f.c2.test.".data⟩⟩ :=
  resolver_gets_original (DNSLogger.init "c2.test".data true)
    (fun _ => some ⟨⟨"68656c6c6f.c2.test.".data⟩⟩) id (fun _ => [])
    "peer".data [] ⟨⟨"68656c6c6f.c2.test.".data⟩⟩ rfl

/-- C3: a datagram whose bytes fail to parse produces no reply, and the
failure is contained to that datagram: the listener goes on to serve the
remaining datagrams exactly as it would have without the malformed one. -/
theorem malformed_contained (logger : DNSLogger) (parse : List Nat → Option DNSRecordM)
    (resolve : DNSRecordM → DNSRecordM) (pack : DNSRecordM → List Nat)
    (sender : List Char) (bad : List Nat) (rest : List (List Char × List Nat))
    (h : parse bad = none) :
    (handle logger parse resolve pack sender bad).reply = none ∧
    serve logger parse resolve pack ((sender, bad) :: rest)
      = handle logger parse resolve pack sender bad
          :: serve logger parse resolve pack rest := by
  constructor
  · unfold handle; rw [h]
  · rfl

/-- C3 witness: a concrete malformed datagram followed by a well-formed one. -/
theorem malformed_contained_witness :
    (handle (DNSLogger.init [] false)
      (fun d => if d = [0] then some ⟨⟨"q.".data⟩⟩ else none) id (fun _ => [7])
      "peer".data [1]).reply = none ∧
    serve (DNSLogger.init [] false)
      (fun d => if d = [0] then some ⟨⟨"q.".data⟩⟩ else none) id (fun _ => [7])
      (("peer".data, [1]) :: [("peer2".data, [0])])
      = handle (DNSLogger.init [] false)
          (fun d => if d = [0] then some ⟨⟨"q.".data⟩⟩ else none) id (fun _ => [7])
          "peer".data [1]
        :: serve (DNSLogger.init [] false)
          (fun d => if d = [0] then some ⟨⟨"q.".data⟩⟩ else none) id (fun _ => [7])
          [("peer2".data, [0])] :=
  malformed_contained (DNSLogger.init [] false)
    (fun d => if d = [0] then some ⟨⟨"q.".data⟩⟩ else none) id (fun _ => [7])
    "peer".data [1] [("peer2".data, [0])] (by decide)

/-- C4: `decode_hex` round-trips hex encoding — decoding the hex encoding of
any UTF-8-representable text recovers the text, and any input that is not a
valid hex string is returned unchanged. -/
theorem decode_hex_roundtrip :
    (∀ t : List Char, decode_hex (bytesToHex (utf8Encode t)) = t) ∧
    (∀ x : List Char, fromHex? x = none → decode_hex x = x) := by
  constructor
  · intro t
    unfold decode_hex
    simp only [fromHex_bytesToHex (utf8Encode t) (utf8Encode_bytes_lt t),
      utf8DecodeCodes_encode t]
    exact natsToChars_toNat t
  · intro x hx
    unfold decode_hex
    rw [hx]

/-- C4 witness: the round trip at `"hi"` and the non-hex fallback at `"zz"`. -/
theorem decode_hex_roundtrip_witness :
    decode_hex (bytesToHex (utf8Encode "hi".data)) = "hi".data ∧
    (fromHex? "zz".data = none ∧ decode_hex "zz".data = "zz".data) :=
  ⟨decode_hex_roundtrip.1 "hi".data, by decide, decode_hex_roundtrip.2 "zz".data (by decide)⟩

/-- C5: suffix normalization is idempotent. -/
theorem parse_suffix_idempotent (s : List Char) :
    parse_suffix (parse_suffix s) = parse_suffix s := by
  by_cases h : s = []
  · subst h; rfl
  · obtain ⟨hne, hp, he⟩ := parse_suffix_spec s h
    exact parse_suffix_fixed _ hp he

/-- C6 counterexample: the claim that every non-empty normalized suffix begins
with a single leading separator fails at the input `".."`, whose normalized
form `".."` begins with two separators. -/
theorem parse_suffix_single_dot_counterexample :
    ¬ (∀ s : List Char, (parse_suffix s = [] ↔ s = []) ∧
        (parse_suffix s ≠ [] → ['.'] <+: parse_suffix s ∧
          ¬(['.', '.'] <+: parse_suffix s) ∧ ['.'] <:+ parse_suffix s)) := by
  intro hclaim
  have h2 := (hclaim ['.', '.']).2 (by decide)
  exact h2.2.1 (by decide)

/-- C6 (amended): normalization maps empty to empty and nothing else to
empty, and every non-empty output begins with a leading separator and ends
with a trailing separator (the leading separator need not be single). -/
theorem parse_suffix_canonical (s : List Char) :
    (parse_suffix s = [] ↔ s = []) ∧
    (parse_suffix s ≠ [] → ['.'] <+: parse_suffix s ∧ ['.'] <:+ parse_suffix s) := by
  by_cases h : s = []
  · subst h
    exact ⟨by simp [parse_suffix], fun hc => absurd rfl hc⟩
  · obtain ⟨hne, hp, he⟩ := parse_suffix_spec s h
    exact ⟨⟨fun hc => absurd hc hne, fun hc => absurd hc h⟩, fun _ => ⟨hp, he⟩⟩

/-- C6 witness: the canonical form at the spec's example `"example.com"`. -/
theorem parse_suffix_canonical_witness :
    ['.'] <+: parse_suffix "example.com".data ∧ ['.'] <:+ parse_suffix "example.com".data :=
  (parse_suffix_canonical "example.com".data).2 (by decide)

/-- C7: when the suffix is non-empty and the name ends with it, stripping
removes exactly that trailing substring; otherwise the name is unchanged. -/
theorem remove_suffix_exact (name suffix : List Char) :
    (suffix ≠ [] → suffix <:+ name → remove_suffix name suffix ++ suffix = name) ∧
    (¬(suffix ≠ [] ∧ suffix <:+ name) → remove_suffix name suffix = name) := by
  constructor
  · intro hne hsuf
    unfold remove_suffix
    rw [if_pos ⟨hne, hsuf⟩]
    obtain ⟨pre, hpre⟩ := hsuf
    subst hpre
    have hlen : (pre ++ suffix).length - suffix.length = pre.length := by
      simp [List.length_append]
    rw [hlen, List.take_left]
  · intro hc; unfold remove_suffix; rw [if_neg hc]

/-- C7 witness: the spec's two concrete examples. -/
theorem remove_suffix_exact_witness :
    remove_suffix "foo.example.com.".data ".example.com.".data ++ ".example.com.".data
        = "foo.example.com.".data ∧
    remove_suffix "foo.bar.".data ".baz.".data = "foo.bar.".data :=
  ⟨(remove_suffix_exact "foo.example.com.".data ".example.com.".data).1 (by decide) (by decide),
   (remove_suffix_exact "foo.bar.".data ".baz.".data).2 (by decide)⟩

/-- C8: whenever hex decoding fails — the input is not a valid hex string, or
its bytes are not valid UTF-8 text — `decode_hex` returns the original label
unchanged; decode failure is a fallback, never an error. -/
theorem decode_hex_fallback (x : List Char)
    (h : fromHex? x = none ∨ ∃ bs, fromHex? x = some bs ∧ utf8DecodeCodes bs = none) :
    decode_hex x = x := by
  unfold decode_hex
  rcases h with h | ⟨bs, h1, h2⟩
  · rw [h]
  · simp [h1, h2]

/-- C8 witness: `"ff"` is valid hex but its byte is not valid UTF-8, and the
label passes through unchanged. -/
theorem decode_hex_fallback_witness :
    (fromHex? "ff".data = none ∨
      ∃ bs, fromHex? "ff".data = some bs ∧ utf8DecodeCodes bs = none) ∧
    decode_hex "ff".data = "ff".data :=
  ⟨Or.inr ⟨[255], by decide, by decide⟩,
   decode_hex_fallback "ff".data (Or.inr ⟨[255], by decide, by decide⟩)⟩

/-- C9: for every parseable request, the handler's logger emits exactly one
line of the form `<sender>: <rendered-question>`, where the rendered question
is the renderer's output on (the copy of) the request's question. -/
theorem log_one_line (logger : DNSLogger) (parse : List Nat → Option DNSRecordM)
    (resolve : DNSRecordM → DNSRecordM) (pack : DNSRecordM → List Nat)
    (sender : List Char) (data : List Nat) (r : DNSRecordM)
    (h : parse data = some r) :
    (handle logger parse resolve pack sender data).logged
      = [sender ++ ':' :: ' ' :: strQuestion (logger.parse_question (deepcopyR r).q)] := by
  unfold handle
  rw [h]
  rfl

/-- C9 witness: the single log line for a concrete hex-encoded request. -/
theorem log_one_line_witness :
    (handle (DNSLogger.init "c2.test".data true)
      (fun _ => some ⟨⟨"68656c6c6f.c2.test.".data⟩⟩) id (fun _ => [])
      "peer".data []).logged
      = ["peer".data ++ ':' :: ' ' :: strQuestion
          ((DNSLogger.init "c2.test".data true).parse_question
            (deepcopyR ⟨⟨"68656c6c6f.c2.test.".data⟩⟩).q)] :=
  log_one_line (DNSLogger.init "c2.test".data true)
    (fun _ => some ⟨⟨"68656c6c6f.c2.test.".data⟩⟩) id (fun _ => [])
    "peer".data [] ⟨⟨"68656c6c6f.c2.test.".data⟩⟩ rfl

/-- C10: in hex-encoded mode, when the stored suffix is non-empty but the
question name does not end with it, the rendered name is the per-label decode
of the whole original name with the suffix appended anyway, so the rendered
name always ends with the configured suffix. -/
theorem render_no_suffix_match (raw name : List Char)
    (hne : parse_suffix raw ≠ []) (hns : ¬ parse_suffix raw <:+ name) :
    (DNSLogger.parse_question (DNSLogger.init raw true) ⟨name⟩).qname
      = joinDots ((splitDot name).map decode_hex) ++ parse_suffix raw ∧
    parse_suffix raw <:+ (DNSLogger.parse_question (DNSLogger.init raw true) ⟨name⟩).qname := by
  have hrs : remove_suffix name (parse_suffix raw) = name := by
    unfold remove_suffix
    exact if_neg (fun hc => hns hc.2)
  have hq : (DNSLogger.parse_question (DNSLogger.init raw true) ⟨name⟩).qname
      = joinDots ((splitDot name).map decode_hex) ++ parse_suffix raw := by
    simp [DNSLogger.parse_question, DNSLogger.init, hrs]
  exact ⟨hq, hq ▸ List.suffix_append _ _⟩

/-- C10 witness: suffix `"c2.test"` and the non-matching name `"6869"`, which
renders as `"hi.c2.test."`. -/
theorem render_no_suffix_match_witness :
    (DNSLogger.parse_question (DNSLogger.init "c2.test".data true) ⟨"6869".data⟩).qname
      = joinDots ((splitDot "6869".data).map decode_hex) ++ parse_suffix "c2.test".data ∧
    parse_suffix "c2.test".data <:+
      (DNSLogger.parse_question (DNSLogger.init "c2.test".data true) ⟨"6869".data⟩).qname :=
  render_no_suffix_match "c2.test".data "6869".data (by decide) (by decide)
